import Mathlib

/-!
Verification development for the batch audio/video transcription tool
(`main.py`).  The Python source is shallowly embedded: pure helpers become
Lean functions over `ℚ`, `String` and `List`, the stateful batch loop
becomes explicit state passing over a `RunState` record, and the external
collaborators (the Whisper engine, `hashlib.md5`, the `json` library)
become function parameters constrained only by their documented contracts.
-/

/-! ## Decimal rendering of integers (Python `str`/`format` on ints) -/

/-- The decimal digit character for `n < 10` (`'0'` … `'9'`). -/
def digitChar (n : Nat) : Char :=
  Char.ofNat (48 + n)

/-- Fuel-driven decimal digit expansion, most significant digit first.
`fuel` bounds the recursion depth; any `fuel > n` yields the full decimal
expansion of `n`. -/
def toDigitsAux : Nat → Nat → List Char
  | 0, _ => []
  | fuel + 1, n =>
    if n < 10 then [digitChar n]
    else toDigitsAux fuel (n / 10) ++ [digitChar (n % 10)]

/-- Decimal representation of a natural number, as Python's `str(n)` /
`f"{n}"` renders a non-negative int. -/
def natRepr (n : Nat) : String :=
  String.mk (toDigitsAux (n + 1) n)

/-- Decimal representation of an integer (Python `str` on an int). -/
def intRepr (i : Int) : String :=
  if i < 0 then "-" ++ natRepr i.natAbs else natRepr i.natAbs

/-- Left-pad a string with `'0'` up to width `w`: Python's `{:0Nd}`
format specifier applied to the rendered integer. -/
def zeroPad (w : Nat) (s : String) : String :=
  if s.length < w then String.mk (List.replicate (w - s.length) '0' ++ s.data) else s

/-- Python `f"{i:02d}"` for an integer `i`. -/
def pad2 (i : Int) : String := zeroPad 2 (intRepr i)

/-- Python `f"{i:03d}"` for an integer `i`. -/
def pad3 (i : Int) : String := zeroPad 3 (intRepr i)

/-- Value of a decimal digit character (inverse of `digitChar`). -/
def digitVal (c : Char) : Nat := c.toNat - 48

/-- Evaluate a most-significant-first digit list back to a natural number;
used to invert `natRepr`. -/
def ofDigits (l : List Char) : Nat :=
  l.foldl (fun a c => 10 * a + digitVal c) 0

/-! ## Python string helpers -/

/-- Python `str.upper()` restricted to the ASCII characters that occur in
language codes. -/
def pyUpper (s : String) : String :=
  String.mk (s.data.map Char.toUpper)

/-- Drop trailing whitespace from a character list (Python `str.rstrip()`). -/
def rstripL (l : List Char) : List Char :=
  (l.reverse.dropWhile Char.isWhitespace).reverse

/-- Python `str.strip()`: drop leading and trailing whitespace. -/
def pyStrip (s : String) : String :=
  String.mk (rstripL (s.data.dropWhile Char.isWhitespace))

/-! ## Timestamp formatter (`format_timestamp`, main.py lines 57-68)

Python floats are modelled as rational numbers.  `timedelta(seconds=s)`
stores whole microseconds only: by its documented constructor semantics,
a fractional microsecond remainder is rounded to the nearest microsecond
with ties to even, and `.total_seconds()` returns the quantised value.
This quantisation is observable in the printed output (it can carry into
the millisecond and second fields), so it is part of the model.
Python's float `//` and `%` are floor-based; `int()` truncates toward
zero. -/

/-- Round to the nearest integer, ties to even: Python's rounding of the
fractional-microsecond remainder inside the `timedelta` constructor. -/
def roundHalfEven (x : ℚ) : ℤ :=
  if Int.fract x = 1 / 2 then (if ⌊x⌋ % 2 = 0 then ⌊x⌋ else ⌊x⌋ + 1) else round x

/-- `timedelta(seconds=s).total_seconds()` (main.py line 59): `s` rounded
to the nearest whole microsecond, ties to even. -/
def total_seconds (s : ℚ) : ℚ :=
  ((roundHalfEven (s * 1000000) : ℤ) : ℚ) / 1000000

/-- Python float floor-division `a // b`, as a rational. -/
def pyFloorDiv (a b : ℚ) : ℚ := ((Rat.floor (a / b) : ℤ) : ℚ)

/-- Python float modulo `a % b` (sign follows the divisor; for `b > 0`
this is `a - b * floor (a / b)`). -/
def pyMod (a b : ℚ) : ℚ := a - b * ((Rat.floor (a / b) : ℤ) : ℚ)

/-- Python `int()` applied to a float: truncation toward zero. -/
def pyTrunc (q : ℚ) : ℤ := q.num.sign * (q.num.natAbs / q.den : ℕ)

/-- `format_timestamp` (main.py lines 57-68): convert seconds to a
readable timestamp string. -/
def format_timestamp (seconds : ℚ) : String :=
  let total := total_seconds seconds
  let hours : ℤ := pyTrunc (pyFloorDiv total 3600)
  let minutes : ℤ := pyTrunc (pyFloorDiv (pyMod total 3600) 60)
  let secs : ℤ := pyTrunc (pyMod total 60)
  let milliseconds : ℤ := pyTrunc (pyMod total 1 * 1000)
  if 0 < hours then
    pad2 hours ++ ":" ++ pad2 minutes ++ ":" ++ pad2 secs ++ "." ++ pad3 milliseconds
  else
    pad2 minutes ++ ":" ++ pad2 secs ++ "." ++ pad3 milliseconds

/-- Real-number modulo as the specification words it: `a mod b` is
`a - b * ⌊a / b⌋`. -/
def rmod (a b : ℚ) : ℚ := a - b * ((⌊a / b⌋ : ℤ) : ℚ)

/-! ## Filename sanitization (main.py line 149) -/

/-- The character classes Python keeps in
`"".join(c for c in filepath.stem if c.isalnum() or c in (' ', '-', '_'))`.
Python's `str.isalnum` consults the Unicode character database, which is
external to this repository; it is passed in as `isalnum`.  On code
points below 128 it coincides with ASCII alphanumericity. -/
def keepChar (isalnum : Char → Bool) (c : Char) : Bool :=
  isalnum c || c = ' ' || c = '-' || c = '_'

/-- Derive the filesystem-safe stem (main.py line 149): keep only
alphanumeric (per the runtime's Unicode `isalnum`), space, hyphen and
underscore characters of the base name, then `rstrip()` trailing
whitespace. -/
def sanitize (isalnum : Char → Bool) (stem : String) : String :=
  String.mk (rstripL (stem.data.filter (keepChar isalnum)))

/-- `pathlib.Path(...).stem`: the file's base name without its final
extension (a leading dot does not start an extension). -/
def pathStem (name : String) : String :=
  let idxs := (List.range name.data.length).filter fun i => name.data.getD i ' ' = '.'
  match idxs.getLast? with
  | none => name
  | some i => if i = 0 then name else String.mk (name.data.take i)

/-! ## File hasher (`get_file_hash`, main.py lines 49-55)

The file's bytes are read in 4096-byte chunks and each chunk is fed to a
streaming digest (`hashlib.md5`).  The digest is abstracted as a state
machine `(init, update, hexdigest)`; `update`'s documented contract is
that absorbing a concatenation equals absorbing the pieces in order. -/

/-- Split a byte list into successive chunks of 4096 bytes, as
`iter(lambda: f.read(4096), b"")` yields them (fuel-driven; `fuel ≥
length` yields the full chunking). -/
def chunksAux : Nat → List Nat → List (List Nat)
  | 0, _ => []
  | _ + 1, [] => []
  | fuel + 1, l => l.take 4096 :: chunksAux fuel (l.drop 4096)

/-- The 4096-byte chunking of a byte list. -/
def chunks4096 (content : List Nat) : List (List Nat) :=
  chunksAux content.length content

/-- `get_file_hash` (main.py lines 49-55), over the file's byte content:
fold the streaming digest over the 4096-byte chunks and render the hex
digest.  `St` is the digest's internal state type. -/
def get_file_hash {St : Type} (update : St → List Nat → St) (init : St)
    (hexdigest : St → String) (content : List Nat) : String :=
  hexdigest ((chunks4096 content).foldl update init)

/-! ## History store (`load_history` / `save_history`, main.py lines 37-47) -/

/-- One value of the persisted history mapping (main.py lines 162-168). -/
structure HistoryRecord where
  filename : String
  date : String
  output_file : String
  language : String
  duration : ℚ
deriving DecidableEq, Repr

/-- The persisted history mapping: content-hash keys to records, in
insertion order (a Python `dict`). -/
abbrev History : Type := List (String × HistoryRecord)

/-- `load_history` (main.py lines 37-42): return the empty mapping when
the metadata file does not exist, otherwise parse it with the external
`json` library (`parse`); a parse failure (`none`) raises, i.e. the
error propagates instead of resetting the history. -/
def load_history (file : Option String) (parse : String → Option History) :
    Except String History :=
  match file with
  | none => Except.ok []
  | some s =>
    match parse s with
    | some h => Except.ok h
    | none => Except.error "JSONDecodeError: transcription history file is not valid"

/-- `save_history` (main.py lines 44-47): serialize the full mapping with
the external `json` library (`dump`) and return the new file content,
replacing whatever the file held before. -/
def save_history (history : History) (dump : History → String) : String :=
  dump history

/-- The timestamp format exactly as the specification describes it:
hours `= ⌊s / 3600⌋`, minutes `= ⌊(s mod 3600) / 60⌋`, seconds
`= ⌊s mod 60⌋`, milliseconds `= ⌊(s mod 1) * 1000⌋`, rendered as
`HH:MM:SS.mmm` when hours is positive and `MM:SS.mmm` otherwise. -/
def formatTimestampSpec (s : ℚ) : String :=
  let hours : ℤ := ⌊s / 3600⌋
  let minutes : ℤ := ⌊rmod s 3600 / 60⌋
  let secs : ℤ := ⌊rmod s 60⌋
  let milliseconds : ℤ := ⌊rmod s 1 * 1000⌋
  if 0 < hours then
    pad2 hours ++ ":" ++ pad2 minutes ++ ":" ++ pad2 secs ++ "." ++ pad3 milliseconds
  else
    pad2 minutes ++ ":" ++ pad2 secs ++ "." ++ pad3 milliseconds

/-! ## Transcription adapter and transcript formatter
(`transcribe_file`, main.py lines 70-114)

The Whisper engine is external; its call is modelled as a function from
the media file to `Option EngineResult` (`none` models the engine
raising, which `transcribe_file` catches and turns into a per-file
failure).  The result dictionary's optional keys become `Option` fields,
matching `result.get('language', 'unknown')` and
`result.get('duration', 0)`. -/

/-- One segment of the engine's result: `{'start': …, 'end': …,
'text': …}`.  `stop` embeds the `'end'` key (`end` is reserved). -/
structure Segment where
  start : ℚ
  stop : ℚ
  text : String
deriving DecidableEq, Repr

/-- The engine's result dictionary, with the keys `transcribe_file` and
`process_files` read from it. -/
structure EngineResult where
  language : Option String
  duration : Option ℚ
  text : String
  segments : List Segment
deriving DecidableEq, Repr

/-- An input file: its name, `pathlib` stem, and byte content. -/
structure MediaFile where
  name : String
  stem : String
  content : List Nat
deriving DecidableEq, Repr

/-- The 80-character header rule line of a transcript. -/
def ruleLine : String := String.mk (List.replicate 80 '═')

/-- The 80-character dash separator line of a transcript. -/
def dashLine : String := String.mk (List.replicate 80 '-')

/-- The lines of the transcript document built by `transcribe_file`
(main.py lines 84-108): header block, per-segment timestamped blocks,
then the full-text section. -/
def transcriptLines (filename now : String) (r : EngineResult) : List String :=
  [ruleLine,
   "TRANSCRIPT: " ++ filename,
   "Date: " ++ now,
   "Language: " ++ pyUpper ((r.language).getD "unknown"),
   ruleLine,
   ""]
  ++ (r.segments.foldr (fun seg acc =>
        ("[" ++ format_timestamp seg.start ++ " → " ++ format_timestamp seg.stop ++ "]")
        :: pyStrip seg.text :: "" :: acc) [])
  ++ [dashLine,
      "FULL TEXT (WITHOUT TIMESTAMPS):",
      dashLine,
      pyStrip r.text]

/-- `transcribe_file` (main.py lines 70-114): invoke the engine; on
success return the formatted transcript together with the raw result, on
an engine exception return `none` (the Python function returns
`(None, None)` after printing the error). -/
def transcribe_file (filename now : String) (engineResult : Option EngineResult) :
    Option (String × EngineResult) :=
  match engineResult with
  | none => none
  | some r => some (String.intercalate "\n" (transcriptLines filename now r), r)

/-! ## Batch orchestrator (`process_files`, main.py lines 116-182) -/

/-- The per-file outcome the loop reports: processed (saved), skipped
(already in history), or failed (engine error). -/
inductive Outcome where
  | processed
  | skipped
  | failed
deriving DecidableEq, Repr

/-- The run's external collaborators and fixed inputs: the content hash
function (`hashlib.md5` pipeline), the engine call, and the current
date/time rendered by `datetime.now()`. -/
structure Config where
  hashFn : List Nat → String
  engine : MediaFile → Option EngineResult
  now : String
  isalnum : Char → Bool

/-- The orchestrator's mutable state: the history mapping, the files
present in the transcripts directory, the files written and engine
invocations made this run, the two counters, and the per-file reports. -/
structure RunState where
  history : History
  existing : List String
  written : List String
  invoked : List String
  processedCount : Nat
  skippedCount : Nat
  reports : List (String × Outcome)

/-- The candidate collision filename `<safe>_transcript_<n>.txt`. -/
def candName (safe : String) (n : Nat) : String :=
  safe ++ "_transcript_" ++ natRepr n ++ ".txt"

/-- The `while output_file.exists()` loop (main.py lines 153-156):
starting at counter `c`, return the first candidate not in `existing`.
`fuel` bounds the search; `existing.length + 1` steps always suffice. -/
def chooseOutputAux (existing : List String) (safe : String) : Nat → Nat → String
  | 0, c => candName safe c
  | fuel + 1, c =>
    if candName safe c ∈ existing then chooseOutputAux existing safe fuel (c + 1)
    else candName safe c

/-- Output path selection (main.py lines 150-156): `<safe>_transcript.txt`
if free, else the first free `<safe>_transcript_<n>.txt` with `n`
counting up from 1. -/
def chooseOutput (existing : List String) (safe : String) : String :=
  if safe ++ "_transcript.txt" ∈ existing then
    chooseOutputAux existing safe (existing.length + 1) 1
  else safe ++ "_transcript.txt"

/-- The history record stored after a successful transcription
(main.py lines 162-168).  `out` is the chosen file name inside the
transcripts directory, so the path relative to the output root is
`transcripts/<out>`. -/
def mkRecord (cfg : Config) (f : MediaFile) (out : String) (r : EngineResult) :
    HistoryRecord where
  filename := f.name
  date := cfg.now
  output_file := "transcripts/" ++ out
  language := (r.language).getD "unknown"
  duration := (r.duration).getD 0

/-- One iteration of the `for` loop of `process_files`
(main.py lines 134-174). -/
def processOne (cfg : Config) (st : RunState) (f : MediaFile) : RunState :=
  let h := cfg.hashFn f.content
  match st.history.lookup h with
  | some _ =>
    { st with skippedCount := st.skippedCount + 1,
              reports := st.reports ++ [(f.name, Outcome.skipped)] }
  | none =>
    match transcribe_file f.name cfg.now (cfg.engine f) with
    | none =>
      { st with invoked := st.invoked ++ [f.name],
                reports := st.reports ++ [(f.name, Outcome.failed)] }
    | some (_, r) =>
      let safe := sanitize cfg.isalnum f.stem
      let out := chooseOutput st.existing safe
      { history := st.history ++ [(h, mkRecord cfg f out r)],
        existing := st.existing ++ [out],
        written := st.written ++ [out],
        invoked := st.invoked ++ [f.name],
        processedCount := st.processedCount + 1,
        skippedCount := st.skippedCount,
        reports := st.reports ++ [(f.name, Outcome.processed)] }

/-- The whole `for` loop of `process_files` over the eligible files. -/
def processFiles (cfg : Config) (st : RunState) (files : List MediaFile) : RunState :=
  files.foldl (processOne cfg) st

/-- The state `process_files` starts a run from: the loaded history, the
transcripts directory's current content, nothing written or invoked,
counters zero, no reports. -/
def initState (history : History) (existing : List String) : RunState where
  history := history
  existing := existing
  written := []
  invoked := []
  processedCount := 0
  skippedCount := 0
  reports := []

/-! ## Main control flow (`main`, main.py lines 184-215) -/

/-- What a run of `main` amounts to after `setup_directories`. -/
inductive MainResult where
  | emptyInput
  | modelLoadFailed
  | completed (final : RunState)

/-- `main` (main.py lines 193-213): if the input directory holds no
entries at all, report and return before the model is loaded; otherwise
load the model (`modelLoads = false` models `whisper.load_model`
raising) and run `process_files`.  The second component records whether
the model-loading step was reached. -/
def mainRun (entries : List String) (modelLoads : Bool) (cfg : Config)
    (history : History) (existing : List String) (files : List MediaFile) :
    MainResult × Bool :=
  if entries.isEmpty then (MainResult.emptyInput, false)
  else if modelLoads then
    (MainResult.completed (processFiles cfg (initState history existing) files), true)
  else (MainResult.modelLoadFailed, true)

/-! ## A concrete serialization instance

`load_history`/`save_history` delegate the text encoding wholesale to the
external `json` library, which the theorems abstract as a `(dump, parse)`
pair satisfying the library's round-trip contract.  The following
length-prefixed encoding is one concrete pair satisfying that contract;
it instantiates the round-trip theorem on concrete mappings. -/

/-- Unary length prefix: `n` ones followed by a colon. -/
def encNat (n : Nat) : List Char := List.replicate n '1' ++ [':']

/-- Decode a unary length prefix, returning the remainder. -/
def decNat : List Char → Option (Nat × List Char)
  | [] => none
  | c :: rest =>
    if c = ':' then some (0, rest)
    else if c = '1' then (decNat rest).map (fun p => (p.1 + 1, p.2))
    else none

/-- Take exactly `n` characters, failing if fewer remain. -/
def decTake : Nat → List Char → Option (List Char × List Char)
  | 0, l => some ([], l)
  | _ + 1, [] => none
  | n + 1, c :: l => (decTake n l).map (fun p => (c :: p.1, p.2))

/-- Length-prefixed string encoding. -/
def encStr (s : String) : List Char := encNat s.length ++ s.data

/-- Decode a length-prefixed string. -/
def decStr (l : List Char) : Option (String × List Char) :=
  (decNat l).bind fun p => (decTake p.1 p.2).map fun q => (String.mk q.1, q.2)

/-- Sign-tagged integer encoding. -/
def encInt (i : Int) : List Char :=
  (if i < 0 then ['n'] else ['p']) ++ encNat i.natAbs

/-- Decode a sign-tagged integer. -/
def decInt : List Char → Option (Int × List Char)
  | 'n' :: r => (decNat r).map fun p => (-(p.1 : Int), p.2)
  | 'p' :: r => (decNat r).map fun p => ((p.1 : Int), p.2)
  | _ => none

/-- Rational encoding as numerator and denominator. -/
def encRat (q : ℚ) : List Char := encInt q.num ++ encNat q.den

/-- Decode a rational. -/
def decRat (l : List Char) : Option (ℚ × List Char) :=
  (decInt l).bind fun p => (decNat p.2).map fun q2 => ((p.1 : ℚ) / (q2.1 : ℚ), q2.2)

/-- Encode one history record field by field. -/
def encRecord (r : HistoryRecord) : List Char :=
  encStr r.filename ++ encStr r.date ++ encStr r.output_file
    ++ encStr r.language ++ encRat r.duration

/-- Decode one history record. -/
def decRecord (l : List Char) : Option (HistoryRecord × List Char) :=
  (decStr l).bind fun a =>
  (decStr a.2).bind fun b =>
  (decStr b.2).bind fun c =>
  (decStr c.2).bind fun d =>
  (decRat d.2).map fun e => (⟨a.1, b.1, c.1, d.1, e.1⟩, e.2)

/-- Encode the history entries in order. -/
def encEntries : History → List Char
  | [] => []
  | (k, v) :: t => encStr k ++ encRecord v ++ encEntries t

/-- Decode exactly `n` history entries. -/
def decEntries : Nat → List Char → Option (History × List Char)
  | 0, l => some ([], l)
  | n + 1, l =>
    (decStr l).bind fun k =>
    (decRecord k.2).bind fun v =>
    (decEntries n v.2).map fun h => ((k.1, v.1) :: h.1, h.2)

/-- The concrete serializer: entry count, then the entries. -/
def dumpHistory (m : History) : String :=
  String.mk (encNat m.length ++ encEntries m)

/-- The concrete parser matching `dumpHistory`. -/
def parseHistory (s : String) : Option History :=
  (decNat s.data).bind fun n =>
  (decEntries n.1 n.2).bind fun h =>
  if h.2 = [] then some h.1 else none

/-! ## Concrete fixtures used by witness instantiations -/

/-- A configuration whose engine always succeeds (used to instantiate
universally quantified theorems on concrete runs). -/
def cfgOkW : Config where
  hashFn := fun content => natRepr content.length
  engine := fun _ => some ⟨some "en", some 1, "Hello world", []⟩
  now := "2025-01-01 00:00:00"
  isalnum := Char.isAlphanum

/-- A configuration whose engine always raises. -/
def cfgFailW : Config where
  hashFn := fun content => natRepr content.length
  engine := fun _ => none
  now := "2025-01-01 00:00:00"
  isalnum := Char.isAlphanum

/-- A concrete input file. -/
def fileW : MediaFile := ⟨"sample.mp3", "sample", [1, 2, 3]⟩

/-- A second concrete input file with different content. -/
def fileW2 : MediaFile := ⟨"other.mp3", "other", [4, 5]⟩

/-- An engine result with neither a language nor a duration key. -/
def resW : EngineResult := ⟨none, none, "Hello world", []⟩

/-- A concrete one-entry history mapping. -/
def mW : History :=
  [("3", ⟨"sample.mp3", "2025-01-01T00:00:00", "transcripts/sample_transcript.txt", "en", 0⟩)]

/-! # Theorems -/

/-! ## General helper lemmas -/

/-- Rebuilding a string from its character data is the identity. -/
theorem strMk_data (s : String) : String.mk s.data = s := by
  cases s
  rfl

/-- `digitVal` inverts `digitChar` on actual digits. -/
theorem digitVal_digitChar (n : Nat) (h : n < 10) : digitVal (digitChar n) = n := by
  interval_cases n <;> decide

/-- Evaluating a digit list after appending one digit. -/
theorem ofDigits_append_one (l : List Char) (c : Char) :
    ofDigits (l ++ [c]) = 10 * ofDigits l + digitVal c := by
  simp [ofDigits, List.foldl_append]

/-- `ofDigits` inverts the fuel-driven digit expansion whenever the fuel
covers the number. -/
theorem ofDigits_toDigitsAux : ∀ fuel n, n < fuel → ofDigits (toDigitsAux fuel n) = n := by
  intro fuel
  induction fuel with
  | zero => omega
  | succ fuel ih =>
    intro n hn
    by_cases h10 : n < 10
    · simp [toDigitsAux, h10, ofDigits, digitVal_digitChar n h10]
    · have hdiv : n / 10 < fuel := by omega
      simp [toDigitsAux, h10, ofDigits_append_one, ih _ hdiv,
            digitVal_digitChar (n % 10) (Nat.mod_lt n (by omega))]
      omega

/-- Decimal rendering of naturals is injective. -/
theorem natRepr_inj : Function.Injective natRepr := by
  intro a b h
  have hdata : toDigitsAux (a + 1) a = toDigitsAux (b + 1) b := by
    have := congrArg String.data h
    simpa [natRepr] using this
  have := congrArg ofDigits hdata
  rwa [ofDigits_toDigitsAux _ _ (Nat.lt_succ_self a),
       ofDigits_toDigitsAux _ _ (Nat.lt_succ_self b)] at this

/-! ## C4: history loading -/

/-- C4: `load_history` returns the empty mapping when the metadata file
does not exist; when the file exists but the JSON parse fails, it
returns a data-corruption error (the history is never silently reset to
empty). -/
theorem load_history_missing_empty_corrupt_raises
    (parse : String → Option History) (s : String) (hbad : parse s = none) :
    load_history none parse = Except.ok []
    ∧ ∃ msg, load_history (some s) parse = Except.error msg := by
  refine ⟨rfl, ?_⟩
  exact ⟨"JSONDecodeError: transcription history file is not valid",
         by simp [load_history, hbad]⟩

/-- Witness for C4 at a concrete unparsable file content. -/
theorem load_history_missing_empty_corrupt_raises_witness :
    (fun _ : String => (none : Option History)) "not valid json" = none
    ∧ (load_history none (fun _ => none) = Except.ok []
       ∧ ∃ msg, load_history (some "not valid json") (fun _ => none) = Except.error msg) :=
  ⟨rfl, load_history_missing_empty_corrupt_raises (fun _ => none) "not valid json" rfl⟩

/-! ## C8: empty input directory -/

/-- C8: with no entries in the input directory, `main` reports empty
input and never reaches the model-loading step; with a non-empty input
directory the model-loading step is reached. -/
theorem main_empty_input_skips_model_load (modelLoads : Bool) (cfg : Config)
    (history : History) (existing : List String) (files : List MediaFile) :
    mainRun [] modelLoads cfg history existing files = (MainResult.emptyInput, false)
    ∧ ∀ entries : List String, entries ≠ [] →
        (mainRun entries modelLoads cfg history existing files).2 = true := by
  constructor
  · rfl
  · intro entries hne
    cases modelLoads <;> simp [mainRun, List.isEmpty_iff, hne]

/-- Witness for C8 on a concrete one-entry directory listing. -/
theorem main_empty_input_skips_model_load_witness :
    (["sample.mp3"] : List String) ≠ []
    ∧ (mainRun ["sample.mp3"] true cfgOkW [] [] []).2 = true :=
  ⟨by decide,
   (main_empty_input_skips_model_load true cfgOkW [] [] []).2 ["sample.mp3"] (by decide)⟩

/-! ## C9: the file hasher is a function of byte content -/

/-- Gluing a fuel-driven chunking back together yields the original list. -/
theorem chunksAux_flatten : ∀ fuel l, l.length ≤ fuel → (chunksAux fuel l).flatten = l := by
  intro fuel
  induction fuel with
  | zero =>
    intro l h
    have : l = [] := List.eq_nil_of_length_eq_zero (by omega)
    simp [this, chunksAux]
  | succ fuel ih =>
    intro l h
    match l with
    | [] => simp [chunksAux]
    | x :: xs =>
      have hlen : (List.drop 4096 (x :: xs)).length ≤ fuel := by
        simp only [List.length_drop, List.length_cons]
        simp only [List.length_cons] at h
        omega
      simp only [chunksAux, List.flatten_cons]
      rw [ih _ hlen, List.take_append_drop]

/-- Folding a concatenation-compatible update over any chunk list absorbs
exactly the concatenation of the chunks. -/
theorem foldl_update_flatten {St : Type} (update : St → List Nat → St)
    (hcat : ∀ st a b, update st (a ++ b) = update (update st a) b)
    (hnil : ∀ st, update st [] = st) :
    ∀ (chunks : List (List Nat)) (st : St),
      chunks.foldl update st = update st chunks.flatten := by
  intro chunks
  induction chunks with
  | nil =>
    intro st
    simp [hnil]
  | cons c cs ih =>
    intro st
    simp only [List.foldl_cons, List.flatten_cons]
    rw [ih, hcat]

/-- C9: `get_file_hash` is a deterministic function of the file's byte
content.  For any streaming digest whose `update` absorbs concatenations
piecewise (the `hashlib` contract), the chunked fold equals absorbing the
whole content at once, so the digest depends only on the bytes: equal
content yields equal hex digests. -/
theorem get_file_hash_deterministic {St : Type} (update : St → List Nat → St)
    (init : St) (hexdigest : St → String)
    (hcat : ∀ st a b, update st (a ++ b) = update (update st a) b)
    (hnil : ∀ st, update st [] = st) :
    (∀ content, get_file_hash update init hexdigest content
                  = hexdigest (update init content))
    ∧ ∀ c1 c2 : List Nat, c1 = c2 →
        get_file_hash update init hexdigest c1 = get_file_hash update init hexdigest c2 := by
  constructor
  · intro content
    unfold get_file_hash chunks4096
    rw [foldl_update_flatten update hcat hnil,
        chunksAux_flatten content.length content (le_refl _)]
  · intro c1 c2 h
    rw [h]

/-- Witness for C9: a concrete digest state machine (plain byte
accumulation rendered by length) on concrete contents. -/
theorem get_file_hash_deterministic_witness :
    (∀ st a b : List Nat, st ++ (a ++ b) = (st ++ a) ++ b)
    ∧ ((∀ content, get_file_hash (· ++ ·) ([] : List Nat)
          (fun st => natRepr st.length) content
            = natRepr (([] ++ content : List Nat)).length)
       ∧ ∀ c1 c2 : List Nat, c1 = c2 →
           get_file_hash (· ++ ·) ([] : List Nat) (fun st => natRepr st.length) c1
             = get_file_hash (· ++ ·) ([] : List Nat) (fun st => natRepr st.length) c2) :=
  ⟨fun st a b => (List.append_assoc st a b).symm,
   get_file_hash_deterministic (· ++ ·) [] (fun st => natRepr st.length)
     (fun st a b => (List.append_assoc st a b).symm) (fun st => List.append_nil st)⟩

/-! ## C7: filename sanitization -/

/-- C7: for any alphanumericity classifier (Python's Unicode-aware
`str.isalnum` is external character data), `sanitize` keeps exactly the
characters of the base name that are alphanumeric per the classifier, or
space, hyphen, underscore, in order, then trims trailing whitespace, and
never fails; for every classifier that agrees with ASCII alphanumericity
on code points below 128 — as Python's does — the base name of
`"clip#1!.mp4"` sanitizes to `"clip1"`. -/
theorem sanitize_keeps_safe_chars (isalnum : Char → Bool) :
    (∀ stem : String,
       sanitize isalnum stem
         = String.mk
             (((stem.data.filter fun c => isalnum c || c = ' ' || c = '-' || c = '_').reverse.dropWhile
                 Char.isWhitespace).reverse))
    ∧ ((∀ c : Char, c.toNat < 128 → isalnum c = Char.isAlphanum c) →
        sanitize isalnum (pathStem "clip#1!.mp4") = "clip1") := by
  constructor
  · intro stem
    rfl
  · intro h
    have hstem : pathStem "clip#1!.mp4" = "clip#1!" := by decide
    have hagree : "clip#1!".data.filter (keepChar isalnum)
        = "clip#1!".data.filter (keepChar Char.isAlphanum) := by
      apply List.filter_congr
      intro c hc
      have hc' : c ∈ ['c', 'l', 'i', 'p', '#', '1', '!'] := hc
      have hascii : c.toNat < 128 := by fin_cases hc' <;> decide
      simp [keepChar, h c hascii]
    rw [hstem]
    unfold sanitize
    rw [hagree]
    decide

/-- Witness for C7: the ASCII classifier trivially satisfies the ASCII
agreement hypothesis. -/
theorem sanitize_keeps_safe_chars_witness :
    (∀ c : Char, c.toNat < 128 → Char.isAlphanum c = Char.isAlphanum c)
    ∧ sanitize Char.isAlphanum (pathStem "clip#1!.mp4") = "clip1" :=
  ⟨fun _ _ => rfl, (sanitize_keeps_safe_chars Char.isAlphanum).2 (fun _ _ => rfl)⟩

/-! ## C10: missing result keys -/

/-- C10: when the engine result has no `language` key the transcript
header line reads `Language: UNKNOWN` and the stored record's language is
`"unknown"`; when it has no `duration` key the stored record's duration
is `0`; neither case is an error. -/
theorem missing_keys_defaults (cfg : Config) (f : MediaFile) (out : String)
    (r : EngineResult) (hl : r.language = none) :
    (transcriptLines f.name cfg.now r).get? 3 = some "Language: UNKNOWN"
    ∧ (mkRecord cfg f out r).language = "unknown"
    ∧ (r.duration = none → (mkRecord cfg f out r).duration = 0) := by
  refine ⟨?_, ?_, ?_⟩
  · have hu : pyUpper "unknown" = "UNKNOWN" := by decide
    simp [transcriptLines, hl, hu]
  · simp [mkRecord, hl]
  · intro hd
    simp [mkRecord, hd]

/-- Witness for C10 at a concrete result lacking both keys. -/
theorem missing_keys_defaults_witness :
    resW.language = none
    ∧ ((transcriptLines fileW.name cfgOkW.now resW).get? 3 = some "Language: UNKNOWN"
       ∧ (mkRecord cfgOkW fileW "sample_transcript.txt" resW).language = "unknown"
       ∧ (resW.duration = none →
            (mkRecord cfgOkW fileW "sample_transcript.txt" resW).duration = 0)) :=
  ⟨rfl, missing_keys_defaults cfgOkW fileW "sample_transcript.txt" resW rfl⟩

/-! ## C5: history store round-trip -/

/-- Decoding a unary length prefix recovers the length and remainder. -/
theorem decNat_encNat (n : Nat) (rest : List Char) :
    decNat (encNat n ++ rest) = some (n, rest) := by
  induction n with
  | zero => simp [encNat, decNat]
  | succ n ih =>
    simp [encNat, List.replicate_succ, decNat] at ih ⊢
    simp [ih]

/-- Taking exactly the length of a prefix recovers prefix and remainder. -/
theorem decTake_exact (l rest : List Char) :
    decTake l.length (l ++ rest) = some (l, rest) := by
  induction l with
  | nil => simp [decTake]
  | cons c t ih => simp [decTake, ih]

/-- Decoding an encoded string recovers it together with the remainder. -/
theorem decStr_encStr (s : String) (rest : List Char) :
    decStr (encStr s ++ rest) = some (s, rest) := by
  have h : decTake s.length (s.data ++ rest) = some (s.data, rest) := by
    have hlen : s.length = s.data.length := rfl
    rw [hlen]
    exact decTake_exact s.data rest
  simp [encStr, decStr, decNat_encNat, h, strMk_data]

/-- Decoding an encoded integer recovers it together with the remainder. -/
theorem decInt_encInt (i : Int) (rest : List Char) :
    decInt (encInt i ++ rest) = some (i, rest) := by
  by_cases hi : i < 0
  · have habs : |i| = -i := abs_of_neg hi
    simp [encInt, hi, decInt, decNat_encNat, habs]
  · have habs : |i| = i := abs_of_nonneg (by omega)
    simp [encInt, hi, decInt, decNat_encNat, habs]

/-- Decoding an encoded rational recovers it together with the remainder. -/
theorem decRat_encRat (q : ℚ) (rest : List Char) :
    decRat (encRat q ++ rest) = some (q, rest) := by
  simp [encRat, decRat, decInt_encInt, decNat_encNat, Rat.num_div_den]

/-- Decoding an encoded history record recovers it with the remainder. -/
theorem decRecord_encRecord (r : HistoryRecord) (rest : List Char) :
    decRecord (encRecord r ++ rest) = some (r, rest) := by
  simp [encRecord, decRecord, decStr_encStr, decRat_encRat]

/-- Decoding the declared number of entries recovers the entry list. -/
theorem decEntries_encEntries (m : History) (rest : List Char) :
    decEntries m.length (encEntries m ++ rest) = some (m, rest) := by
  induction m with
  | nil => simp [encEntries, decEntries]
  | cons kv t ih =>
    obtain ⟨k, v⟩ := kv
    simp [encEntries, decEntries, decStr_encStr, decRecord_encRecord, ih]

/-- The concrete serializer pair satisfies the round-trip contract. -/
theorem parseHistory_dumpHistory (m : History) :
    parseHistory (dumpHistory m) = some m := by
  have h1 : decNat (encNat m.length ++ encEntries m) = some (m.length, encEntries m) :=
    decNat_encNat m.length (encEntries m)
  have h2 : decEntries m.length (encEntries m ++ []) = some (m, []) :=
    decEntries_encEntries m []
  rw [List.append_nil] at h2
  simp [parseHistory, dumpHistory, h1, h2]

/-- C5: for any serializer/parser pair satisfying the external `json`
library's round-trip contract and any valid mapping `m` (distinct hash
keys), saving the history and loading it back returns `m` unchanged. -/
theorem history_store_roundtrip (dump : History → String)
    (parse : String → Option History)
    (hcontract : ∀ h : History, parse (dump h) = some h)
    (m : History) (hvalid : (m.map Prod.fst).Nodup) :
    load_history (some (save_history m dump)) parse = Except.ok m := by
  simp [load_history, save_history, hcontract]

/-- Witness for C5: the concrete serializer pair on a concrete one-entry
mapping. -/
theorem history_store_roundtrip_witness :
    (∀ h : History, parseHistory (dumpHistory h) = some h)
    ∧ (mW.map Prod.fst).Nodup
    ∧ load_history (some (save_history mW dumpHistory)) parseHistory = Except.ok mW :=
  ⟨parseHistory_dumpHistory, by simp [mW],
   history_store_roundtrip dumpHistory parseHistory parseHistory_dumpHistory mW
     (by simp [mW])⟩

/-! ## C6: collision-safe output naming -/

/-- Distinct counters give distinct candidate collision filenames. -/
theorem candName_inj (safe : String) : Function.Injective (candName safe) := by
  intro a b h
  have hdata := congrArg String.data h
  simp only [candName, String.data_append, List.append_assoc] at hdata
  have h1 := List.append_cancel_left hdata
  have h2 := List.append_cancel_left h1
  have h3 := List.append_cancel_right h2
  have hrepr : natRepr a = natRepr b := by
    have ha : (natRepr a).data = toDigitsAux (a + 1) a := rfl
    have hb : (natRepr b).data = toDigitsAux (b + 1) b := rfl
    have : (natRepr a).data = (natRepr b).data := h3
    calc natRepr a = String.mk (natRepr a).data := (strMk_data _).symm
      _ = String.mk (natRepr b).data := by rw [this]
      _ = natRepr b := strMk_data _
  exact natRepr_inj hrepr

/-- Within any window of `existing.length + 1` consecutive counters, some
candidate filename is not already taken (pigeonhole). -/
theorem exists_free_cand (existing : List String) (safe : String) (c : Nat) :
    ∃ k, c ≤ k ∧ k < c + (existing.length + 1) ∧ candName safe k ∉ existing := by
  by_contra hall
  push_neg at hall
  have hmem : ∀ i ∈ Finset.range (existing.length + 1),
      candName safe (c + i) ∈ existing.toFinset := by
    intro i hi
    rw [List.mem_toFinset]
    exact hall (c + i) (by omega) (by simp at hi; omega)
  have hsub : (Finset.range (existing.length + 1)).image (fun i => candName safe (c + i))
      ⊆ existing.toFinset := by
    intro x hx
    obtain ⟨i, hi, rfl⟩ := Finset.mem_image.1 hx
    exact hmem i hi
  have hinj : Function.Injective (fun i => candName safe (c + i)) := by
    intro i j hij
    have := candName_inj safe hij
    omega
  have hcard := Finset.card_le_card hsub
  rw [Finset.card_image_of_injective _ hinj, Finset.card_range] at hcard
  have := List.toFinset_card_le existing
  omega

/-- The collision loop returns the first free candidate at or after the
starting counter, provided a free candidate exists within the fuel. -/
theorem chooseOutputAux_first_free (existing : List String) (safe : String) :
    ∀ fuel c, (∃ k, c ≤ k ∧ k < c + fuel ∧ candName safe k ∉ existing) →
    ∃ n, c ≤ n ∧ chooseOutputAux existing safe fuel c = candName safe n
      ∧ candName safe n ∉ existing
      ∧ ∀ m, c ≤ m → m < n → candName safe m ∈ existing := by
  intro fuel
  induction fuel with
  | zero =>
    intro c ⟨k, hk1, hk2, _⟩
    omega
  | succ fuel ih =>
    intro c ⟨k, hk1, hk2, hk3⟩
    by_cases hc : candName safe c ∈ existing
    · have hex : ∃ k, c + 1 ≤ k ∧ k < c + 1 + fuel ∧ candName safe k ∉ existing := by
        have hkc : k ≠ c := fun h => hk3 (h ▸ hc)
        exact ⟨k, by omega, by omega, hk3⟩
      obtain ⟨n, hn1, hn2, hn3, hn4⟩ := ih (c + 1) hex
      refine ⟨n, by omega, ?_, hn3, ?_⟩
      · simp [chooseOutputAux, hc, hn2]
      · intro m hm1 hm2
        rcases Nat.eq_or_lt_of_le hm1 with rfl | hlt
        · exact hc
        · exact hn4 m (by omega) hm2
    · exact ⟨c, le_refl c, by simp [chooseOutputAux, hc], hc,
             fun m hm1 hm2 => absurd (lt_of_le_of_lt hm1 hm2) (lt_irrefl c)⟩

/-- C6: the chosen output path is `<stem>_transcript.txt` when free, and
otherwise `<stem>_transcript_<n>.txt` for the smallest positive `n` whose
path is free; with `foo_transcript.txt` present, stem `foo` yields
`foo_transcript_1.txt`. -/
theorem chooseOutput_unique (existing : List String) (safe : String) :
    (safe ++ "_transcript.txt" ∉ existing →
       chooseOutput existing safe = safe ++ "_transcript.txt")
    ∧ (safe ++ "_transcript.txt" ∈ existing →
       ∃ n, 0 < n ∧ chooseOutput existing safe = candName safe n
         ∧ candName safe n ∉ existing
         ∧ ∀ m, 0 < m → m < n → candName safe m ∈ existing)
    ∧ chooseOutput ["foo_transcript.txt"] "foo" = "foo_transcript_1.txt" := by
  refine ⟨?_, ?_, by decide⟩
  · intro hfree
    simp [chooseOutput, hfree]
  · intro htaken
    have hex : ∃ k, 1 ≤ k ∧ k < 1 + (existing.length + 1)
        ∧ candName safe k ∉ existing := exists_free_cand existing safe 1
    obtain ⟨n, hn1, hn2, hn3, hn4⟩ :=
      chooseOutputAux_first_free existing safe (existing.length + 1) 1 hex
    refine ⟨n, by omega, ?_, hn3, fun m hm1 hm2 => hn4 m (by omega) hm2⟩
    simp [chooseOutput, htaken, hn2]

/-- Witness for C6: concrete instantiations of both branches. -/
theorem chooseOutput_unique_witness :
    ("a_transcript.txt" ∉ ([] : List String))
    ∧ chooseOutput [] "a" = "a_transcript.txt" :=
  ⟨by decide, (chooseOutput_unique [] "a").1 (by decide)⟩

/-! ## C2/C3: orchestrator lemmas -/

/-- Association-list lookup over an append tries the left list first. -/
theorem lookup_append (k : String) (l1 l2 : History) :
    (l1 ++ l2).lookup k = ((l1.lookup k).orElse fun _ => l2.lookup k) := by
  induction l1 with
  | nil => simp [List.lookup]
  | cons a t ih =>
    obtain ⟨k', v⟩ := a
    cases h : k == k' <;> simp [List.lookup, h, ih]

/-- A file whose hash is already a history key is skipped: the counter
and report are the only changes — no engine invocation, no write, no
history change. -/
theorem processOne_skip (cfg : Config) (st : RunState) (f : MediaFile)
    (h : (st.history.lookup (cfg.hashFn f.content)).isSome) :
    processOne cfg st f
      = { st with skippedCount := st.skippedCount + 1,
                  reports := st.reports ++ [(f.name, Outcome.skipped)] } := by
  obtain ⟨r, hr⟩ := Option.isSome_iff_exists.1 h
  simp [processOne, hr]

/-- Processing one file never removes a key from the history. -/
theorem processOne_keeps_key (cfg : Config) (st : RunState) (f : MediaFile)
    (k : String) (h : (st.history.lookup k).isSome) :
    ((processOne cfg st f).history.lookup k).isSome := by
  obtain ⟨v, hv⟩ := Option.isSome_iff_exists.1 h
  cases hl : st.history.lookup (cfg.hashFn f.content) with
  | some r => simp [processOne, hl, hv]
  | none =>
    cases he : cfg.engine f with
    | none => simp [processOne, hl, he, transcribe_file, hv]
    | some r => simp [processOne, hl, he, transcribe_file, lookup_append, hv]

/-- Running the loop never removes a key from the history. -/
theorem processFiles_keeps_key (cfg : Config) :
    ∀ (files : List MediaFile) (st : RunState) (k : String),
      (st.history.lookup k).isSome →
      ((processFiles cfg st files).history.lookup k).isSome := by
  intro files
  induction files with
  | nil => intro st k h; exact h
  | cons f0 rest ih =>
    intro st k h
    exact ih (processOne cfg st f0) k (processOne_keeps_key cfg st f0 k h)

/-- After a run in which the engine succeeded on every file, every file's
content hash is a key of the final history. -/
theorem processFiles_covers (cfg : Config) :
    ∀ (files : List MediaFile) (st : RunState),
      (∀ f ∈ files, (cfg.engine f).isSome) →
      ∀ f ∈ files,
        (((processFiles cfg st files).history.lookup (cfg.hashFn f.content)).isSome) := by
  intro files
  induction files with
  | nil => intro st _ f hf; cases hf
  | cons f0 rest ih =>
    intro st hsucc f hf
    rcases List.mem_cons.1 hf with rfl | hmem
    · have hstep : ((processOne cfg st f).history.lookup (cfg.hashFn f.content)).isSome := by
        cases hl : st.history.lookup (cfg.hashFn f.content) with
        | some r => simp [processOne, hl]
        | none =>
          obtain ⟨r, hr⟩ := Option.isSome_iff_exists.1 (hsucc f (by simp))
          simp [processOne, hl, hr, transcribe_file, lookup_append, List.lookup]
      exact processFiles_keeps_key cfg rest (processOne cfg st f) _ hstep
    · exact ih (processOne cfg st f0) (fun g hg => hsucc g (List.mem_cons_of_mem f0 hg)) f hmem

/-- When every file's hash is already a history key, the whole loop only
counts skips and appends skip reports: history, transcripts directory,
writes, and engine invocations are untouched. -/
theorem processFiles_all_skipped (cfg : Config) :
    ∀ (files : List MediaFile) (st : RunState),
      (∀ f ∈ files, ((st.history.lookup (cfg.hashFn f.content)).isSome)) →
      processFiles cfg st files
        = { st with skippedCount := st.skippedCount + files.length,
                    reports := st.reports ++ files.map fun f => (f.name, Outcome.skipped) } := by
  intro files
  induction files with
  | nil =>
    intro st _
    simp [processFiles]
  | cons f0 rest ih =>
    intro st hall
    have h0 := processOne_skip cfg st f0 (hall f0 (by simp))
    have hrest : ∀ f ∈ rest,
        (((processOne cfg st f0).history.lookup (cfg.hashFn f.content)).isSome) := by
      intro f hf
      rw [h0]
      exact hall f (List.mem_cons_of_mem f0 hf)
    show processFiles cfg (processOne cfg st f0) rest = _
    rw [h0, ih _ (by rw [h0] at hrest; exact hrest)]
    obtain ⟨h, e, w, inv, p, sk, r⟩ := st
    simp [RunState.mk.injEq]
    omega

/-- C2: a file whose content hash is already a key of the loaded history
is skipped — no engine invocation, no write, no history change, skip
counted and reported; consequently, when the first run's engine succeeded
on every file, a second run over the unchanged input writes nothing,
invokes nothing, leaves the history unchanged, and reports every file as
skipped. -/
theorem orchestrator_skip_and_second_run (cfg : Config) (files : List MediaFile)
    (history0 : History) (existing0 : List String)
    (hsucc : ∀ f ∈ files, (cfg.engine f).isSome) :
    (∀ (st : RunState) (f : MediaFile),
        ((st.history.lookup (cfg.hashFn f.content)).isSome) →
        processOne cfg st f
          = { st with skippedCount := st.skippedCount + 1,
                      reports := st.reports ++ [(f.name, Outcome.skipped)] })
    ∧ ∀ st1 st2 : RunState,
        st1 = processFiles cfg (initState history0 existing0) files →
        st2 = processFiles cfg (initState st1.history st1.existing) files →
        st2.history = st1.history ∧ st2.written = [] ∧ st2.invoked = []
          ∧ st2.skippedCount = files.length
          ∧ st2.reports = files.map fun f => (f.name, Outcome.skipped) := by
  refine ⟨fun st f h => processOne_skip cfg st f h, ?_⟩
  intro st1 st2 h1 h2
  have hcov : ∀ f ∈ files,
      ((st1.history.lookup (cfg.hashFn f.content)).isSome) := by
    subst h1
    exact processFiles_covers cfg files (initState history0 existing0) hsucc
  have hall2 : ∀ f ∈ files,
      (((initState st1.history st1.existing).history.lookup (cfg.hashFn f.content)).isSome) :=
    hcov
  rw [h2, processFiles_all_skipped cfg files (initState st1.history st1.existing) hall2]
  exact ⟨rfl, rfl, rfl, by simp [initState], by simp [initState]⟩

/-- Witness for C2: a concrete run whose engine always succeeds. -/
theorem orchestrator_skip_and_second_run_witness :
    (∀ f ∈ [fileW], (cfgOkW.engine f).isSome)
    ∧ ((∀ (st : RunState) (f : MediaFile),
          ((st.history.lookup (cfgOkW.hashFn f.content)).isSome) →
          processOne cfgOkW st f
            = { st with skippedCount := st.skippedCount + 1,
                        reports := st.reports ++ [(f.name, Outcome.skipped)] })
       ∧ ∀ st1 st2 : RunState,
           st1 = processFiles cfgOkW (initState [] []) [fileW] →
           st2 = processFiles cfgOkW (initState st1.history st1.existing) [fileW] →
           st2.history = st1.history ∧ st2.written = [] ∧ st2.invoked = []
             ∧ st2.skippedCount = [fileW].length
             ∧ st2.reports = [fileW].map fun f => (f.name, Outcome.skipped)) :=
  ⟨fun _ _ => rfl,
   orchestrator_skip_and_second_run cfgOkW [fileW] [] [] (fun _ _ => rfl)⟩

/-- C3: when the engine raises on a file whose hash is not yet recorded,
the loop only logs the invocation and a failure report — the history,
the written files and the counters are unchanged for that file — and the
batch continues with the remaining files. -/
theorem engine_failure_isolated (cfg : Config) (files1 files2 : List MediaFile)
    (f : MediaFile) (st0 : RunState)
    (hfail : cfg.engine f = none)
    (hnew : (processFiles cfg st0 files1).history.lookup (cfg.hashFn f.content) = none) :
    processOne cfg (processFiles cfg st0 files1) f
      = { processFiles cfg st0 files1 with
          invoked := (processFiles cfg st0 files1).invoked ++ [f.name],
          reports := (processFiles cfg st0 files1).reports ++ [(f.name, Outcome.failed)] }
    ∧ processFiles cfg st0 (files1 ++ f :: files2)
      = processFiles cfg (processOne cfg (processFiles cfg st0 files1) f) files2 := by
  constructor
  · simp [processOne, hnew, hfail, transcribe_file]
  · simp [processFiles, List.foldl_append]

/-- Witness for C3: a concrete failing engine with a follow-up file. -/
theorem engine_failure_isolated_witness :
    cfgFailW.engine fileW = none
    ∧ (processFiles cfgFailW (initState [] []) []).history.lookup
        (cfgFailW.hashFn fileW.content) = none
    ∧ (processOne cfgFailW (processFiles cfgFailW (initState [] []) []) fileW
         = { processFiles cfgFailW (initState [] []) [] with
             invoked := (processFiles cfgFailW (initState [] []) []).invoked ++ [fileW.name],
             reports := (processFiles cfgFailW (initState [] []) []).reports
                          ++ [(fileW.name, Outcome.failed)] }
       ∧ processFiles cfgFailW (initState [] []) ([] ++ fileW :: [fileW2])
         = processFiles cfgFailW
             (processOne cfgFailW (processFiles cfgFailW (initState [] []) []) fileW)
             [fileW2]) :=
  ⟨rfl, rfl, engine_failure_isolated cfgFailW [] [fileW2] fileW (initState [] []) rfl rfl⟩

/-! ## C1: timestamp formatting -/

/-- The computable `Rat.floor` agrees with the mathematical floor. -/
theorem ratFloor_eq_floor (q : ℚ) : Rat.floor q = ⌊q⌋ := by
  rw [Rat.floor_def', Rat.floor_def]

/-- `int()` is the identity on (casts of) integers. -/
theorem pyTrunc_intCast (n : ℤ) : pyTrunc ((n : ℤ) : ℚ) = n := by
  unfold pyTrunc
  rw [Rat.num_intCast, Rat.den_intCast, Nat.div_one, Int.sign_mul_natAbs]

/-- On non-negative rationals, `int()` truncation coincides with floor. -/
theorem pyTrunc_eq_floor_of_nonneg (q : ℚ) (hq : 0 ≤ q) : pyTrunc q = ⌊q⌋ := by
  have hn : 0 ≤ q.num := Rat.num_nonneg.2 hq
  rcases lt_or_eq_of_le hn with hpos | hzero
  · have hsign : q.num.sign = 1 := Int.sign_eq_one_of_pos hpos
    unfold pyTrunc
    rw [hsign, one_mul, Rat.floor_def, Int.natCast_div, Int.natAbs_of_nonneg hn]
  · have hq0 : q = 0 := Rat.num_eq_zero.1 hzero.symm
    subst hq0
    simp [pyTrunc]

/-- The real modulo is the divisor times the fractional part. -/
theorem rmod_eq_fract (a b : ℚ) (hb : b ≠ 0) : rmod a b = b * Int.fract (a / b) := by
  unfold rmod
  rw [Int.fract, mul_sub, mul_div_cancel₀ a hb]

/-- The real modulo by a positive divisor is non-negative. -/
theorem rmod_nonneg (a b : ℚ) (hb : 0 < b) : 0 ≤ rmod a b := by
  rw [rmod_eq_fract a b (ne_of_gt hb)]
  exact mul_nonneg hb.le (Int.fract_nonneg _)

/-- The Python implementation computes exactly the specification's
floor-based fields of the microsecond-quantised total (for every
rational input). -/
theorem format_timestamp_eq_spec (s : ℚ) :
    format_timestamp s = formatTimestampSpec (total_seconds s) := by
  have h60 : (0:ℚ) ≤ rmod (total_seconds s) 60 := rmod_nonneg _ 60 (by norm_num)
  have hms : (0:ℚ) ≤ rmod (total_seconds s) 1 * 1000 :=
    mul_nonneg (rmod_nonneg _ 1 (by norm_num)) (by norm_num)
  unfold format_timestamp formatTimestampSpec pyFloorDiv pyMod
  unfold rmod at h60 hms ⊢
  simp only [ratFloor_eq_floor]
  rw [pyTrunc_intCast, pyTrunc_intCast,
      pyTrunc_eq_floor_of_nonneg _ h60, pyTrunc_eq_floor_of_nonneg _ hms]

/-- Rounding ties-to-even is the identity on integers. -/
theorem roundHalfEven_intCast (n : ℤ) : roundHalfEven ((n : ℤ) : ℚ) = n := by
  unfold roundHalfEven
  rw [Int.fract_intCast, if_neg (by norm_num), round_intCast]

/-- The `timedelta` quantisation is the identity on inputs that are a
whole number of microseconds. -/
theorem total_seconds_exact (s : ℚ) (h : ∃ n : ℤ, s = (n : ℚ) / 1000000) :
    total_seconds s = s := by
  obtain ⟨n, rfl⟩ := h
  unfold total_seconds
  rw [div_mul_cancel₀ _ (by norm_num : (1000000 : ℚ) ≠ 0), roundHalfEven_intCast]

/-- C1 counterexample: at `59.9999995` seconds (half a microsecond below
one minute) the program's `timedelta` quantisation rounds up to `60.0`
and prints `"01:00.000"`, while the claim's truncation-only floor
formula yields `"00:59.999"` — so the formatter does not implement the
claimed formula on the raw input. -/
theorem format_timestamp_rounds_at_half_microsecond :
    format_timestamp (59.9999995 : ℚ) = "01:00.000"
    ∧ formatTimestampSpec (59.9999995 : ℚ) = "00:59.999"
    ∧ format_timestamp (59.9999995 : ℚ) ≠ formatTimestampSpec (59.9999995 : ℚ) := by
  have hx : (59.9999995 : ℚ) * 1000000 = 119999999 / 2 := by norm_num
  have hfl : ⌊(119999999 / 2 : ℚ)⌋ = 59999999 := by norm_num
  have hfr : Int.fract ((119999999 : ℚ) / 2) = 1 / 2 := by
    unfold Int.fract
    rw [hfl]
    norm_num
  have htot : total_seconds (59.9999995 : ℚ) = 60 := by
    unfold total_seconds roundHalfEven
    rw [hx, if_pos hfr, hfl,
        if_neg (by decide : ¬((59999999 : ℤ) % 2 = 0))]
    norm_num
  have h1 : format_timestamp (59.9999995 : ℚ) = "01:00.000" := by
    rw [format_timestamp_eq_spec, htot]
    unfold formatTimestampSpec rmod
    norm_num
    decide
  have h2 : formatTimestampSpec (59.9999995 : ℚ) = "00:59.999" := by
    unfold formatTimestampSpec rmod
    norm_num
    decide
  exact ⟨h1, h2, by rw [h1, h2]; decide⟩

/-- C1 (amended): the formatter renders the claim's floor/truncation
fields of the input *after* `timedelta`'s rounding of the seconds value
to the nearest whole microsecond (ties to even); the quantisation is the
identity on whole-microsecond inputs, where the output is therefore pure
truncation, and the documented examples `65.25 ↦ "01:05.250"` and
`3661.5 ↦ "01:01:01.500"` hold. -/
theorem format_timestamp_matches_spec :
    (∀ s : ℚ, 0 ≤ s → format_timestamp s = formatTimestampSpec (total_seconds s))
    ∧ (∀ s : ℚ, (∃ n : ℤ, s = (n : ℚ) / 1000000) → total_seconds s = s)
    ∧ format_timestamp 65.25 = "01:05.250"
    ∧ format_timestamp 3661.5 = "01:01:01.500" := by
  refine ⟨fun s _ => format_timestamp_eq_spec s, total_seconds_exact, ?_, ?_⟩
  · rw [format_timestamp_eq_spec,
        total_seconds_exact 65.25 ⟨65250000, by norm_num⟩]
    unfold formatTimestampSpec rmod
    norm_num
    decide
  · rw [format_timestamp_eq_spec,
        total_seconds_exact 3661.5 ⟨3661500000, by norm_num⟩]
    unfold formatTimestampSpec rmod
    norm_num
    decide

/-- Witness for C1 at the concrete whole-microsecond input `0`. -/
theorem format_timestamp_matches_spec_witness :
    ((0 : ℚ) ≤ 0 ∧ (∃ n : ℤ, (0 : ℚ) = (n : ℚ) / 1000000))
    ∧ format_timestamp 0 = formatTimestampSpec (total_seconds 0)
    ∧ total_seconds (0 : ℚ) = 0 :=
  ⟨⟨le_refl 0, ⟨0, by norm_num⟩⟩,
   format_timestamp_matches_spec.1 0 (le_refl 0),
   format_timestamp_matches_spec.2.1 0 ⟨0, by norm_num⟩⟩
